import Mathlib

/-
Verification of the collectorschema module (modules/collectorschema/component_schema.go).

The module manages versioned JSON/YAML configuration schemas for OpenTelemetry
collector components.  Schemas live in an embedded asset tree
schemas/<version>/<category>_<name>.yaml; a SchemaManager caches parsed schemas
in a map keyed by "<category>_<name>_<version>", validates candidate
configurations against them, and scans schema documents for deprecated fields.

Shallow embedding conventions:
- Generic parsed YAML/JSON values (the Go interface value universe) are the
  inductive type Value; Go map[string]interface 0x7b0x7d values are association lists
  List (String × Value) (Go maps have unique keys; lookups take the first hit).
- The embedded filesystem (embed.FS) is a structure of two functions, readDir
  and readFile, mirroring fs.ReadDir and fs.ReadFile.  The actual embedded
  asset bytes are not part of the repository sources, so stores are kept
  abstract and constrained only where a claim needs a store property.
- Third party codecs (gopkg.in/yaml.v3 yaml.Unmarshal, encoding/json
  json.Marshal, gojsonschema.Validate) are parameters of the operations that
  call them; a (bytes, error) return is an Option / Except result.
- Go errors are their formatted message strings; fmt.Errorf wrapping with %w
  is modelled as message concatenation.
- Operations that can touch the store also return the list of asset paths they
  read, so that claims about I/O can be stated.
- filepath.Join is modelled as joining with "/": every path component built by
  this module is a literal or a caller supplied name, with no dot segments.
-/

/-- Generic parsed YAML/JSON value: the universe of Go interface values that
yaml.Unmarshal and encoding/json produce. -/
inductive Value where
  | vnull : Value
  | vbool : Bool → Value
  | vstr : String → Value
  | vnum : Int → Value
  | vobj : List (String × Value) → Value
  | varr : List Value → Value

/-- Go map[string]interface 0x7b0x7d, as an association list. -/
abbrev SchemaMap := List (String × Value)

/-- DeprecatedField struct of component_schema.go (fields Name, Description, Type). -/
structure DeprecatedField where
  name : String
  description : String
  type : String
deriving DecidableEq

/-- Lookup in a Go map modelled as an association list: first binding wins. -/
def lookupKey {α : Type} : List (String × α) → String → Option α
  | [], _ => none
  | (k, v) :: rest, key => if k = key then some v else lookupKey rest key

/-- Go map assignment m[k] = v: replace the first binding of k, else append. -/
def insertKey {α : Type} : List (String × α) → String → α → List (String × α)
  | [], key, v => [(key, v)]
  | (k, w) :: rest, key, v =>
    if k = key then (key, v) :: rest else (k, w) :: insertKey rest key v

/-- Path construction of findDeprecatedFields: the parent path joined to the
field name with ".", or the bare field name at the root. -/
def joinPath (parent fieldName : String) : String :=
  if parent = "" then fieldName else parent ++ "." ++ fieldName

/-- Description extraction of findDeprecatedFields: the "description" entry if
it is a string, otherwise the empty string. -/
def descOf (m : SchemaMap) : String :=
  match lookupKey m "description" with
  | some (Value.vstr s) => s
  | _ => ""

/-- Type extraction of findDeprecatedFields: the "type" entry if it is a
string, otherwise the empty string.  The specification calls this the kind of
the node; the schema documents store it under the JSON key "type". -/
def typeOf (m : SchemaMap) : String :=
  match lookupKey m "type" with
  | some (Value.vstr s) => s
  | _ => ""

/-- Emission step of findDeprecatedFields at one field node: an entry is
produced exactly when the node binds "deprecated" to the boolean true. -/
def deprecatedEntry (m : SchemaMap) (fieldPath : String) : List DeprecatedField :=
  match lookupKey m "deprecated" with
  | some (Value.vbool true) => [{ name := fieldPath, description := descOf m, type := typeOf m }]
  | _ => []

mutual
/-- findDeprecatedFields of component_schema.go: looks up the "properties" map
of a schema node and scans its fields.  The Go version appends into a slice
through a pointer; here the collected list is returned. -/
def findDeprecatedFields : SchemaMap → String → List DeprecatedField
  | [], _ => []
  | (k, v) :: rest, currentPath =>
    if k = "properties" then
      match v with
      | Value.vobj props => scanProperties props currentPath
      | _ => []
    else findDeprecatedFields rest currentPath

/-- Per field loop of findDeprecatedFields: for each (fieldName, fieldSchema)
pair of a properties map, emit an entry when the field node is deprecated and
recurse into the field node. -/
def scanProperties : List (String × Value) → String → List DeprecatedField
  | [], _ => []
  | (fieldName, fieldSchema) :: rest, currentPath =>
    (match fieldSchema with
     | Value.vobj m =>
       deprecatedEntry m (joinPath currentPath fieldName) ++
         findDeprecatedFields m (joinPath currentPath fieldName)
     | _ => []) ++ scanProperties rest currentPath
end

/-- Go strings.HasPrefix. -/
def hasPfx (s p : String) : Bool := p.data.isPrefixOf s.data

/-- Go strings.HasSuffix. -/
def hasSfx (s suf : String) : Bool := suf.data.isSuffixOf s.data

/-- Go strings.TrimPrefix. -/
def trimPfx (s p : String) : String :=
  if hasPfx s p then String.mk (s.data.drop p.data.length) else s

/-- Go strings.TrimSuffix. -/
def trimSfx (s suf : String) : String :=
  if hasSfx s suf then String.mk (s.data.take (s.data.length - suf.data.length)) else s

/-- Lexicographic order on character lists: the order Go uses to compare
strings (UTF-8 byte order coincides with code point order). -/
def charsLt : List Char → List Char → Bool
  | [], [] => false
  | [], _ :: _ => true
  | _ :: _, [] => false
  | a :: as, b :: bs => if a < b then true else if b < a then false else charsLt as bs

/-- Go string comparison a < b. -/
def goStringLt (a b : String) : Bool := charsLt a.data b.data

/-- Go strings.Contains(s, ".") as used by the version scan. -/
def containsDot (s : String) : Bool := s.data.any (fun c => c = '.')

/-- One fs.DirEntry of the embedded filesystem. -/
structure DirEntry where
  name : String
  isDir : Bool

/-- Raw file contents. -/
abbrev Bytes := List Nat

/-- The embedded schema filesystem (embed.FS), as its two read operations.
The concrete embedded assets are not among the repository sources, so the
store stays abstract. -/
structure EmbedFS where
  readDir : String → Option (List DirEntry)
  readFile : String → Option Bytes

/-- ComponentSchema struct: Name, Type, Version and the parsed schema map. -/
structure ComponentSchema where
  name : String
  type : String
  version : String
  schema : SchemaMap

/-- SchemaManager state: the cache map from composite keys to schemas.  The
RAG database fields play no part in the schema operations modelled here. -/
structure SchemaManager where
  cache : List (String × ComponentSchema)

/-- NewSchemaManager: empty cache. -/
def NewSchemaManager : SchemaManager := { cache := [] }

/-- Cache key of GetComponentSchema: fmt.Sprintf("%s_%s_%s", type, name, version). -/
def mkCacheKey (componentType componentName version : String) : String :=
  componentType ++ "_" ++ componentName ++ "_" ++ version

/-- Schema file path built by loadSchemaFromFile:
filepath.Join("schemas/<version>", "<type>_<name>.yaml"). -/
def schemaFilePath (componentType componentName version : String) : String :=
  ("schemas/" ++ version) ++ "/" ++ (componentType ++ "_" ++ componentName ++ ".yaml")

/-- isValidComponentType of component_schema.go: membership in the closed
five element category set. -/
def isValidComponentType (componentType : String) : Bool :=
  componentType = "receiver" || componentType = "processor" || componentType = "exporter" ||
    componentType = "extension" || componentType = "connector"

/-- loadSchemaFromFile: read the schema file from the embedded filesystem and
parse it with yaml.Unmarshal (the parameter parseYaml) into a schema map. -/
def loadSchemaFromFile (fs : EmbedFS) (parseYaml : Bytes → Option SchemaMap)
    (componentType componentName version : String) : Except String ComponentSchema :=
  match fs.readFile (schemaFilePath componentType componentName version) with
  | none => Except.error ("schema not found for component " ++ componentType ++ " " ++ componentName)
  | some data =>
    match parseYaml data with
    | none =>
      Except.error ("failed to parse schema YAML for " ++ componentType ++ " " ++ componentName)
    | some schemaData =>
      Except.ok { name := componentName, type := componentType, version := version,
                  schema := schemaData }

/-- GetComponentSchema: cache lookup, then loadSchemaFromFile on a miss, with
the successful result inserted into the cache.  The third component lists the
asset paths read from the store during the call. -/
def GetComponentSchema (fs : EmbedFS) (parseYaml : Bytes → Option SchemaMap)
    (sm : SchemaManager) (componentType componentName version : String) :
    Except String ComponentSchema × SchemaManager × List String :=
  match lookupKey sm.cache (mkCacheKey componentType componentName version) with
  | some schema => (Except.ok schema, sm, [])
  | none =>
    match loadSchemaFromFile fs parseYaml componentType componentName version with
    | Except.error e =>
      (Except.error e, sm, [schemaFilePath componentType componentName version])
    | Except.ok schema =>
      (Except.ok schema,
        { cache := insertKey sm.cache (mkCacheKey componentType componentName version) schema },
        [schemaFilePath componentType componentName version])

/-- Loop body of GetComponentNames: skip directories and files without the
".yaml" suffix, then keep the name of every file whose name starts with
"<type>_", trimming the suffix and the prefix, provided the remainder is not
empty. -/
def entryComponentName (componentType : String) (e : DirEntry) : Option String :=
  if e.isDir || !hasSfx e.name ".yaml" then none
  else if hasPfx e.name (componentType ++ "_") then
    let nm := trimPfx (trimSfx e.name ".yaml") (componentType ++ "_")
    if nm ≠ "" then some nm else none
  else none

/-- GetComponentNames: reject invalid categories, list the version directory,
and keep the middle part of every file named <type>_<name>.yaml.  The second
component lists the asset paths read during the call. -/
def GetComponentNames (fs : EmbedFS) (componentType version : String) :
    Except String (List String) × List String :=
  if isValidComponentType componentType then
    match fs.readDir ("schemas/" ++ version) with
    | none =>
      (Except.error ("failed to read schema directory for version " ++ version),
        ["schemas/" ++ version])
    | some entries =>
      let componentNames := entries.filterMap (entryComponentName componentType)
      if componentNames = [] then
        (Except.error ("no " ++ componentType ++ " components found for version " ++ version),
          ["schemas/" ++ version])
      else (Except.ok componentNames, ["schemas/" ++ version])
  else (Except.error ("invalid component type: " ++ componentType), [])

/-- Loop body of GetLatestVersion: keep the running maximum of the directory
names that contain a dot, comparing with the Go string order. -/
def latestLoop : List DirEntry → String → String
  | [], latest => latest
  | e :: rest, latest =>
    if e.isDir && containsDot e.name then
      if latest = "" || goStringLt latest e.name then latestLoop rest e.name
      else latestLoop rest latest
    else latestLoop rest latest

/-- The version shaped directory names of a listing: directories whose name
contains at least one dot. -/
def versionShapedNames (entries : List DirEntry) : List String :=
  entries.filterMap (fun e => if e.isDir && containsDot e.name then some e.name else none)

/-- GetLatestVersion: scan the top level schemas directory for version shaped
directory names and return the lexicographically largest one. -/
def GetLatestVersion (fs : EmbedFS) : Except String String :=
  match fs.readDir "schemas" with
  | none => Except.error "failed to read schemas directory"
  | some entries =>
    if latestLoop entries "" = "" then Except.error "no versions found in schemas directory"
    else Except.ok (latestLoop entries "")

/-- GetDeprecatedFields: fetch the component schema (through the cache) and
scan its document for deprecated fields starting from the empty path. -/
def GetDeprecatedFields (fs : EmbedFS) (parseYaml : Bytes → Option SchemaMap)
    (sm : SchemaManager) (componentType componentName version : String) :
    Except String (List DeprecatedField) × SchemaManager :=
  match GetComponentSchema fs parseYaml sm componentType componentName version with
  | (Except.error e, sm2, _) =>
    (Except.error ("failed to get schema for " ++ componentType ++ " " ++ componentName ++
      " v" ++ version ++ ": " ++ e), sm2)
  | (Except.ok schema, sm2, _) =>
    (Except.ok (findDeprecatedFields schema.schema ""), sm2)

/-- ValidateComponentJSON: fetch the schema, marshal it back to JSON bytes
(parameter marshalMap for json.Marshal of the schema map) and run the
gojsonschema validator (parameter jsValidate) on the schema bytes and the
candidate document bytes.  R is the gojsonschema result type. -/
def ValidateComponentJSON {R : Type} (fs : EmbedFS) (parseYaml : Bytes → Option SchemaMap)
    (marshalMap : SchemaMap → Option Bytes) (jsValidate : Bytes → Bytes → Except String R)
    (sm : SchemaManager) (componentType componentName version : String) (jsonData : Bytes) :
    Except String R × SchemaManager :=
  match GetComponentSchema fs parseYaml sm componentType componentName version with
  | (Except.error e, sm2, _) =>
    (Except.error ("failed to get schema for " ++ componentType ++ " " ++ componentName ++
      " v" ++ version ++ ": " ++ e), sm2)
  | (Except.ok componentSchema, sm2, _) =>
    match marshalMap componentSchema.schema with
    | none =>
      (Except.error ("failed to marshal schema for " ++ componentType ++ " " ++ componentName),
        sm2)
    | some schemaBytes =>
      match jsValidate schemaBytes jsonData with
      | Except.error e =>
        (Except.error ("validation failed for " ++ componentType ++ " " ++ componentName ++
          ": " ++ e), sm2)
      | Except.ok result => (Except.ok result, sm2)

/-- ValidateComponentYAML: parse the YAML candidate into a generic value
(parameter parseYamlVal for yaml.Unmarshal into an interface value), marshal
that value to JSON bytes (parameter marshalVal for json.Marshal), and delegate
to ValidateComponentJSON. -/
def ValidateComponentYAML {R : Type} (fs : EmbedFS) (parseYaml : Bytes → Option SchemaMap)
    (marshalMap : SchemaMap → Option Bytes) (jsValidate : Bytes → Bytes → Except String R)
    (parseYamlVal : Bytes → Option Value) (marshalVal : Value → Option Bytes)
    (sm : SchemaManager) (componentType componentName version : String) (yamlData : Bytes) :
    Except String R × SchemaManager :=
  match parseYamlVal yamlData with
  | none => (Except.error "failed to parse YAML data", sm)
  | some data =>
    match marshalVal data with
    | none => (Except.error "failed to convert YAML to JSON for validation", sm)
    | some jsonData =>
      ValidateComponentJSON fs parseYaml marshalMap jsValidate sm
        componentType componentName version jsonData

/-- The set of field nodes the deprecation scan visits: starting from a schema
node with a given parent path, the scan visits field node m at dotted path
path exactly when this relation holds.  Paths are built by joinPath, i.e. the
parent path joined to the field name with ".". -/
inductive ScanVisits : SchemaMap → String → String → SchemaMap → Prop where
  | here (schema : SchemaMap) (parent : String) (props : List (String × Value))
      (f : String) (m : SchemaMap) :
      lookupKey schema "properties" = some (Value.vobj props) →
      (f, Value.vobj m) ∈ props →
      ScanVisits schema parent (joinPath parent f) m
  | nest (schema : SchemaMap) (parent : String) (props : List (String × Value))
      (f : String) (m : SchemaMap) (path : String) (node : SchemaMap) :
      lookupKey schema "properties" = some (Value.vobj props) →
      (f, Value.vobj m) ∈ props →
      ScanVisits m (joinPath parent f) path node →
      ScanVisits schema parent path node

mutual
/-- Remove every "items" entry of a schema node, recursively below the
"properties" subtrees the scanner walks.  Everything the scanner can reach is
kept unchanged; only array element subtrees are dropped. -/
def eraseItemsNode : SchemaMap → SchemaMap
  | [] => []
  | (k, v) :: rest =>
    if k = "items" then eraseItemsNode rest
    else if k = "properties" then (k, eraseInProps v) :: eraseItemsNode rest
    else (k, v) :: eraseItemsNode rest

/-- Transform the value bound to "properties" of a node. -/
def eraseInProps : Value → Value
  | Value.vobj props => Value.vobj (eraseItemsFields props)
  | v => v

/-- Transform every field of a properties map. -/
def eraseItemsFields : List (String × Value) → List (String × Value)
  | [] => []
  | (f, v) :: rest => (f, eraseInField v) :: eraseItemsFields rest

/-- Transform one field value of a properties map. -/
def eraseInField : Value → Value
  | Value.vobj m => Value.vobj (eraseItemsNode m)
  | v => v
end

/-- SchemaManager states reachable from NewSchemaManager over a fixed store
and parser.  GetComponentSchema is the only operation that writes the cache;
every other operation either leaves the state alone or calls it once, so its
steps generate all reachable cache states. -/
inductive Reachable (fs : EmbedFS) (parseYaml : Bytes → Option SchemaMap) :
    SchemaManager → Prop where
  | init : Reachable fs parseYaml NewSchemaManager
  | step (sm : SchemaManager) (componentType componentName version : String) :
      Reachable fs parseYaml sm →
      Reachable fs parseYaml
        (GetComponentSchema fs parseYaml sm componentType componentName version).2.1

theorem findDeprecatedFields_nil (p : String) : findDeprecatedFields [] p = [] := by
  rw [findDeprecatedFields.eq_def]

theorem findDeprecatedFields_cons (k : String) (v : Value) (rest : SchemaMap) (p : String) :
    findDeprecatedFields ((k, v) :: rest) p =
      if k = "properties" then
        match v with
        | Value.vobj props => scanProperties props p
        | _ => []
      else findDeprecatedFields rest p := by
  rw [findDeprecatedFields.eq_def]

theorem scanProperties_nil (p : String) : scanProperties [] p = [] := by
  rw [scanProperties.eq_def]

theorem scanProperties_cons (f : String) (v : Value) (rest : List (String × Value))
    (p : String) :
    scanProperties ((f, v) :: rest) p =
      (match v with
       | Value.vobj m =>
         deprecatedEntry m (joinPath p f) ++ findDeprecatedFields m (joinPath p f)
       | _ => []) ++ scanProperties rest p := by
  rw [scanProperties.eq_def]

theorem lookupKey_insertKey {α : Type} (l : List (String × α)) (k : String) (v : α)
    (k2 : String) :
    lookupKey (insertKey l k v) k2 = if k2 = k then some v else lookupKey l k2 := by
  induction l with
  | nil =>
    simp only [insertKey, lookupKey]
    by_cases h : k2 = k
    · simp [h]
    · have h2 : ¬ k = k2 := fun e => h e.symm
      simp [h, h2]
  | cons kv rest ih =>
    obtain ⟨k1, w⟩ := kv
    simp only [insertKey]
    by_cases h1 : k1 = k
    · simp only [if_pos h1]
      subst h1
      by_cases h2 : k2 = k1
      · subst h2
        simp [lookupKey]
      · have h3 : ¬ k1 = k2 := fun e => h2 e.symm
        simp [lookupKey, h2, h3]
    · simp only [if_neg h1, lookupKey]
      by_cases h2 : k1 = k2
      · subst h2
        have h3 : ¬ k1 = k := h1
        simp [h3]
      · simp [h2, ih]

theorem findDeprecatedFields_eq_props (schema : SchemaMap) (parent : String) :
    findDeprecatedFields schema parent =
      match lookupKey schema "properties" with
      | some (Value.vobj props) => scanProperties props parent
      | _ => [] := by
  induction schema with
  | nil => simp [findDeprecatedFields_nil, lookupKey]
  | cons kv rest ih =>
    obtain ⟨k, v⟩ := kv
    by_cases hk : k = "properties"
    · subst hk
      cases v <;> simp [findDeprecatedFields_cons, lookupKey]
    · simp [findDeprecatedFields_cons, lookupKey, hk, ih]

theorem eraseItemsNode_nil : eraseItemsNode [] = [] := by
  rw [eraseItemsNode.eq_def]

theorem eraseItemsNode_cons (k : String) (v : Value) (rest : SchemaMap) :
    eraseItemsNode ((k, v) :: rest) =
      if k = "items" then eraseItemsNode rest
      else if k = "properties" then (k, eraseInProps v) :: eraseItemsNode rest
      else (k, v) :: eraseItemsNode rest := by
  rw [eraseItemsNode.eq_def]

theorem eraseItemsFields_nil : eraseItemsFields [] = [] := by
  rw [eraseItemsFields.eq_def]

theorem eraseItemsFields_cons (f : String) (v : Value) (rest : List (String × Value)) :
    eraseItemsFields ((f, v) :: rest) = (f, eraseInField v) :: eraseItemsFields rest := by
  rw [eraseItemsFields.eq_def]

theorem eraseInProps_eq (v : Value) :
    eraseInProps v =
      match v with
      | Value.vobj props => Value.vobj (eraseItemsFields props)
      | v => v := by
  rw [eraseInProps.eq_def]

theorem eraseInField_eq (v : Value) :
    eraseInField v =
      match v with
      | Value.vobj m => Value.vobj (eraseItemsNode m)
      | v => v := by
  rw [eraseInField.eq_def]

theorem lookupKey_eraseItemsNode (m : SchemaMap) (k : String)
    (hk1 : k ≠ "items") (hk2 : k ≠ "properties") :
    lookupKey (eraseItemsNode m) k = lookupKey m k := by
  induction m with
  | nil => rw [eraseItemsNode_nil]
  | cons kv rest ih =>
    obtain ⟨k1, v⟩ := kv
    rw [eraseItemsNode_cons]
    by_cases h1 : k1 = "items"
    · subst h1
      have : ¬ ("items" : String) = k := fun e => hk1 e.symm
      simp [lookupKey, this, ih]
    · by_cases h2 : k1 = "properties"
      · subst h2
        have : ¬ ("properties" : String) = k := fun e => hk2 e.symm
        simp [lookupKey, h1, this, ih]
      · by_cases h3 : k1 = k
        · subst h3
          simp [lookupKey, h1, h2]
        · simp [lookupKey, h1, h2, h3, ih]

theorem lookupKey_props_eraseItemsNode (m : SchemaMap) :
    lookupKey (eraseItemsNode m) "properties" =
      Option.map eraseInProps (lookupKey m "properties") := by
  induction m with
  | nil => rw [eraseItemsNode_nil]; rfl
  | cons kv rest ih =>
    obtain ⟨k1, v⟩ := kv
    rw [eraseItemsNode_cons]
    by_cases h1 : k1 = "items"
    · subst h1
      simp [lookupKey, ih]
    · by_cases h2 : k1 = "properties"
      · subst h2
        simp [lookupKey]
      · simp [lookupKey, h1, h2, ih]

theorem deprecatedEntry_eraseItemsNode (m : SchemaMap) (p : String) :
    deprecatedEntry (eraseItemsNode m) p = deprecatedEntry m p := by
  unfold deprecatedEntry descOf typeOf
  rw [lookupKey_eraseItemsNode m "deprecated" (by decide) (by decide),
    lookupKey_eraseItemsNode m "description" (by decide) (by decide),
    lookupKey_eraseItemsNode m "type" (by decide) (by decide)]

theorem eraseInProps_vobj (props : List (String × Value)) :
    eraseInProps (Value.vobj props) = Value.vobj (eraseItemsFields props) := by
  rw [eraseInProps_eq]

theorem eraseInProps_of_ne (v : Value) (hv : ∀ props, v = Value.vobj props → False) :
    eraseInProps v = v := by
  cases v with
  | vobj props => exact absurd rfl (hv props)
  | vnull => rw [eraseInProps_eq]
  | vbool b => rw [eraseInProps_eq]
  | vstr s => rw [eraseInProps_eq]
  | vnum n => rw [eraseInProps_eq]
  | varr l => rw [eraseInProps_eq]

theorem eraseInField_vobj (m : SchemaMap) :
    eraseInField (Value.vobj m) = Value.vobj (eraseItemsNode m) := by
  rw [eraseInField_eq]

theorem scanProperties_eraseItemsFields :
    ∀ (props : List (String × Value)) (p : String),
      scanProperties (eraseItemsFields props) p = scanProperties props p := by
  refine scanProperties.induct
    (fun schema p => findDeprecatedFields (eraseItemsNode schema) p = findDeprecatedFields schema p)
    (fun props p => scanProperties (eraseItemsFields props) p = scanProperties props p)
    ?c1 ?c2 ?c3 ?c4 ?c5 ?c6
  case c1 =>
    intro p
    rw [eraseItemsNode_nil]
  case c2 =>
    intro rest currentPath props ih
    rw [eraseItemsNode_cons, if_neg (show ¬ ("properties" : String) = "items" by decide),
      if_pos rfl, eraseInProps_vobj, findDeprecatedFields_cons, if_pos rfl,
      findDeprecatedFields_cons, if_pos rfl]
    exact ih
  case c3 =>
    intro v rest currentPath hv
    rw [eraseItemsNode_cons, if_neg (show ¬ ("properties" : String) = "items" by decide),
      if_pos rfl, eraseInProps_of_ne v hv, findDeprecatedFields_cons, if_pos rfl,
      findDeprecatedFields_cons, if_pos rfl]
  case c4 =>
    intro k v rest currentPath hk ih
    rw [eraseItemsNode_cons]
    by_cases hi : k = "items"
    · rw [if_pos hi, ih, findDeprecatedFields_cons, if_neg hk]
    · rw [if_neg hi, if_neg hk, findDeprecatedFields_cons, if_neg hk,
        findDeprecatedFields_cons, if_neg hk]
      exact ih
  case c5 =>
    intro p
    rw [eraseItemsFields_nil]
  case c6 =>
    intro fieldName fieldSchema rest currentPath ihf ihr
    rw [eraseItemsFields_cons, scanProperties_cons, scanProperties_cons, ihr]
    congr 1
    cases fieldSchema with
    | vobj m =>
      rw [eraseInField_vobj]
      show deprecatedEntry (eraseItemsNode m) (joinPath currentPath fieldName) ++
          findDeprecatedFields (eraseItemsNode m) (joinPath currentPath fieldName) =
        deprecatedEntry m (joinPath currentPath fieldName) ++
          findDeprecatedFields m (joinPath currentPath fieldName)
      rw [deprecatedEntry_eraseItemsNode,
        show findDeprecatedFields (eraseItemsNode m) (joinPath currentPath fieldName) =
          findDeprecatedFields m (joinPath currentPath fieldName) from ihf]
    | vnull => rw [eraseInField_eq]
    | vbool b => rw [eraseInField_eq]
    | vstr s => rw [eraseInField_eq]
    | vnum n => rw [eraseInField_eq]
    | varr l => rw [eraseInField_eq]

theorem findDeprecatedFields_eraseItemsNode (schema : SchemaMap) (p : String) :
    findDeprecatedFields (eraseItemsNode schema) p = findDeprecatedFields schema p := by
  rw [findDeprecatedFields_eq_props, findDeprecatedFields_eq_props,
    lookupKey_props_eraseItemsNode]
  cases h : lookupKey schema "properties" with
  | none => rfl
  | some v =>
    cases v with
    | vobj props =>
      simp only [Option.map_some, eraseInProps_eq]
      exact scanProperties_eraseItemsFields props p
    | vnull => rfl
    | vbool b => rfl
    | vstr s => rfl
    | vnum n => rfl
    | varr l => rfl

theorem visits_congr {s1 s2 : SchemaMap} {parent path : String} {m : SchemaMap}
    (h : lookupKey s1 "properties" = lookupKey s2 "properties")
    (hv : ScanVisits s1 parent path m) : ScanVisits s2 parent path m := by
  cases hv with
  | here _ _ props f m hl hm =>
    exact ScanVisits.here s2 parent props f m (h.symm.trans hl) hm
  | nest _ _ props f m0 _ _ hl hm hi =>
    exact ScanVisits.nest s2 parent props f m0 _ _ (h.symm.trans hl) hm hi

theorem visits_subset {props props2 : List (String × Value)} {parent path : String}
    {m : SchemaMap} (hsub : ∀ x ∈ props, x ∈ props2)
    (hv : ScanVisits [("properties", Value.vobj props)] parent path m) :
    ScanVisits [("properties", Value.vobj props2)] parent path m := by
  cases hv with
  | here _ _ props1 f m hl hm =>
    have h1 : some (Value.vobj props) = some (Value.vobj props1) := by
      rw [← hl]; rfl
    have h2 : props1 = props := by
      cases h1; rfl
    subst h2
    exact ScanVisits.here _ parent props2 f m rfl (hsub _ hm)
  | nest _ _ props1 f m0 _ _ hl hm hi =>
    have h1 : some (Value.vobj props) = some (Value.vobj props1) := by
      rw [← hl]; rfl
    have h2 : props1 = props := by
      cases h1; rfl
    subst h2
    exact ScanVisits.nest _ parent props2 f m0 _ _ rfl (hsub _ hm) hi

theorem mem_deprecatedEntry (m : SchemaMap) (p : String) (d : DeprecatedField)
    (h : d ∈ deprecatedEntry m p) :
    lookupKey m "deprecated" = some (Value.vbool true) ∧
      d = { name := p, description := descOf m, type := typeOf m } := by
  unfold deprecatedEntry at h
  cases hl : lookupKey m "deprecated" with
  | none => rw [hl] at h; simp at h
  | some v =>
    rw [hl] at h
    cases v with
    | vbool b =>
      cases b with
      | true =>
        refine ⟨rfl, ?_⟩
        simpa using h
      | false => simp at h
    | vnull => simp at h
    | vstr s => simp at h
    | vnum n => simp at h
    | vobj o => simp at h
    | varr l => simp at h

theorem deprecatedEntry_self_mem (m : SchemaMap) (p : String)
    (h : lookupKey m "deprecated" = some (Value.vbool true)) :
    ({ name := p, description := descOf m, type := typeOf m } : DeprecatedField) ∈
      deprecatedEntry m p := by
  unfold deprecatedEntry
  rw [h]
  exact List.mem_singleton.mpr rfl

theorem scanProperties_mem_of {props : List (String × Value)} {parent f : String}
    {m : SchemaMap} {x : DeprecatedField} (hm : (f, Value.vobj m) ∈ props)
    (hx : x ∈ deprecatedEntry m (joinPath parent f) ++
      findDeprecatedFields m (joinPath parent f)) :
    x ∈ scanProperties props parent := by
  induction props with
  | nil => simp at hm
  | cons gw rest ih =>
    obtain ⟨g, w⟩ := gw
    rw [scanProperties_cons]
    rcases List.mem_cons.mp hm with heq | hmem
    · have hg : g = f := congrArg Prod.fst heq.symm
      have hw : w = Value.vobj m := congrArg Prod.snd heq.symm
      subst hg
      subst hw
      exact List.mem_append_left _ hx
    · exact List.mem_append_right _ (ih hmem)

theorem findDeprecatedFields_sound :
    ∀ (schema : SchemaMap) (parent : String),
      ∀ d ∈ findDeprecatedFields schema parent,
        ∃ path m, ScanVisits schema parent path m ∧
          lookupKey m "deprecated" = some (Value.vbool true) ∧
          d = { name := path, description := descOf m, type := typeOf m } := by
  refine findDeprecatedFields.induct
    (fun schema parent => ∀ d ∈ findDeprecatedFields schema parent,
      ∃ path m, ScanVisits schema parent path m ∧
        lookupKey m "deprecated" = some (Value.vbool true) ∧
        d = { name := path, description := descOf m, type := typeOf m })
    (fun props parent => ∀ d ∈ scanProperties props parent,
      ∃ path m, ScanVisits [("properties", Value.vobj props)] parent path m ∧
        lookupKey m "deprecated" = some (Value.vbool true) ∧
        d = { name := path, description := descOf m, type := typeOf m })
    ?s1 ?s2 ?s3 ?s4 ?s5 ?s6
  case s1 =>
    intro parent d hd
    rw [findDeprecatedFields_nil] at hd
    exact absurd hd (List.not_mem_nil d)
  case s2 =>
    intro rest currentPath props ih d hd
    rw [findDeprecatedFields_cons, if_pos rfl] at hd
    have hd2 : d ∈ scanProperties props currentPath := hd
    obtain ⟨path, m, hv, hdep, hde⟩ := ih d hd2
    refine ⟨path, m, visits_congr ?_ hv, hdep, hde⟩
    show lookupKey [("properties", Value.vobj props)] "properties" =
      lookupKey (("properties", Value.vobj props) :: rest) "properties"
    simp [lookupKey]
  case s3 =>
    intro v rest currentPath hv d hd
    rw [findDeprecatedFields_cons, if_pos rfl] at hd
    cases v with
    | vobj props => exact absurd rfl (hv props)
    | vnull => exact absurd hd (List.not_mem_nil d)
    | vbool b => exact absurd hd (List.not_mem_nil d)
    | vstr s => exact absurd hd (List.not_mem_nil d)
    | vnum n => exact absurd hd (List.not_mem_nil d)
    | varr l => exact absurd hd (List.not_mem_nil d)
  case s4 =>
    intro k v rest currentPath hk ih d hd
    rw [findDeprecatedFields_cons, if_neg hk] at hd
    obtain ⟨path, m, hv, hdep, hde⟩ := ih d hd
    refine ⟨path, m, visits_congr ?_ hv, hdep, hde⟩
    show lookupKey rest "properties" = lookupKey ((k, v) :: rest) "properties"
    have : ¬ k = "properties" := hk
    simp [lookupKey, this]
  case s5 =>
    intro parent d hd
    rw [scanProperties_nil] at hd
    exact absurd hd (List.not_mem_nil d)
  case s6 =>
    intro fieldName fieldSchema rest currentPath ihf ihr d hd
    rw [scanProperties_cons] at hd
    rcases List.mem_append.mp hd with h1 | h2
    · cases fieldSchema with
      | vobj m =>
        have h1b : d ∈ deprecatedEntry m (joinPath currentPath fieldName) ++
            findDeprecatedFields m (joinPath currentPath fieldName) := h1
        rcases List.mem_append.mp h1b with hdep | hrec
        · obtain ⟨hd1, hd2⟩ := mem_deprecatedEntry m (joinPath currentPath fieldName) d hdep
          refine ⟨joinPath currentPath fieldName, m, ?_, hd1, hd2⟩
          exact ScanVisits.here _ currentPath ((fieldName, Value.vobj m) :: rest)
            fieldName m rfl (List.mem_cons_self _ _)
        · obtain ⟨path, node, hvv, hdep, hde⟩ := ihf d hrec
          refine ⟨path, node, ?_, hdep, hde⟩
          exact ScanVisits.nest _ currentPath ((fieldName, Value.vobj m) :: rest)
            fieldName m _ _ rfl (List.mem_cons_self _ _) hvv
      | vnull => exact absurd h1 (List.not_mem_nil d)
      | vbool b => exact absurd h1 (List.not_mem_nil d)
      | vstr s => exact absurd h1 (List.not_mem_nil d)
      | vnum n => exact absurd h1 (List.not_mem_nil d)
      | varr l => exact absurd h1 (List.not_mem_nil d)
    · obtain ⟨path, node, hvv, hdep, hde⟩ := ihr d h2
      exact ⟨path, node, visits_subset (fun x hx => List.mem_cons_of_mem _ hx) hvv, hdep, hde⟩

theorem mem_findDeprecatedFields_of_visits :
    ∀ {schema : SchemaMap} {parent path : String} {m : SchemaMap},
      ScanVisits schema parent path m →
      lookupKey m "deprecated" = some (Value.vbool true) →
      ({ name := path, description := descOf m, type := typeOf m } : DeprecatedField) ∈
        findDeprecatedFields schema parent := by
  intro schema parent path m hv
  induction hv with
  | here _ _ props f m1 hl hm =>
    intro hdep
    rw [findDeprecatedFields_eq_props, hl]
    exact scanProperties_mem_of hm
      (List.mem_append_left _ (deprecatedEntry_self_mem m1 _ hdep))
  | nest _ _ props f m0 _ _ hl hm hi ih =>
    intro hdep
    rw [findDeprecatedFields_eq_props, hl]
    exact scanProperties_mem_of hm (List.mem_append_right _ (ih hdep))

theorem charsLt_irrefl : ∀ l : List Char, charsLt l l = false := by
  intro l
  induction l with
  | nil => rfl
  | cons a rest ih => simp [charsLt, lt_irrefl, ih]

theorem charsLt_nil_right : ∀ l : List Char, charsLt l [] = false := by
  intro l
  cases l with
  | nil => rfl
  | cons a rest => rfl

theorem charsLt_trans :
    ∀ (a b c : List Char), charsLt a b = true → charsLt b c = true → charsLt a c = true := by
  intro a
  induction a with
  | nil =>
    intro b c hab hbc
    cases b with
    | nil => simp [charsLt] at hab
    | cons y ys =>
      cases c with
      | nil => simp [charsLt_nil_right] at hbc
      | cons z zs => simp [charsLt]
  | cons x xs ih =>
    intro b c hab hbc
    cases b with
    | nil => simp [charsLt_nil_right] at hab
    | cons y ys =>
      cases c with
      | nil => simp [charsLt_nil_right] at hbc
      | cons z zs =>
        simp only [charsLt] at hab hbc ⊢
        by_cases hxy : x < y
        · by_cases hyz : y < z
          · simp [lt_trans hxy hyz]
          · by_cases hzy : z < y
            · simp [hyz, hzy] at hbc
            · have hyzeq : y = z := le_antisymm (not_lt.mp hzy) (not_lt.mp hyz)
              subst hyzeq
              simp [hxy]
        · by_cases hyx : y < x
          · simp [hxy, hyx] at hab
          · have hxyeq : x = y := le_antisymm (not_lt.mp hyx) (not_lt.mp hxy)
            subst hxyeq
            simp only [lt_irrefl, if_false] at hab
            by_cases hyz : x < z
            · simp [hyz]
            · by_cases hzy : z < x
              · simp [hyz, hzy] at hbc
              · have hxzeq : x = z := le_antisymm (not_lt.mp hzy) (not_lt.mp hyz)
                subst hxzeq
                simp only [lt_irrefl, if_false] at hbc ⊢
                exact ih ys zs hab hbc

theorem charsLt_eq_of_not_lt :
    ∀ (a b : List Char), charsLt a b = false → charsLt b a = false → a = b := by
  intro a
  induction a with
  | nil =>
    intro b hab _
    cases b with
    | nil => rfl
    | cons y ys => simp [charsLt] at hab
  | cons x xs ih =>
    intro b hab hba
    cases b with
    | nil => simp [charsLt] at hba
    | cons y ys =>
      simp only [charsLt] at hab hba
      by_cases hxy : x < y
      · simp [hxy] at hab
      · by_cases hyx : y < x
        · simp [hyx] at hba
        · have hxyeq : x = y := le_antisymm (not_lt.mp hyx) (not_lt.mp hxy)
          subst hxyeq
          simp only [lt_irrefl, if_false] at hab hba
          rw [ih ys hab hba]

theorem goStringLt_irrefl (s : String) : goStringLt s s = false :=
  charsLt_irrefl s.data

theorem goStringLt_empty_right (s : String) : goStringLt s "" = false :=
  charsLt_nil_right s.data

theorem goStringLt_trans {a b c : String} (h1 : goStringLt a b = true)
    (h2 : goStringLt b c = true) : goStringLt a c = true :=
  charsLt_trans a.data b.data c.data h1 h2

theorem goStringLt_eq_of_not_lt {a b : String} (h1 : goStringLt a b = false)
    (h2 : goStringLt b a = false) : a = b :=
  String.ext (charsLt_eq_of_not_lt a.data b.data h1 h2)


theorem versionShapedNames_cons (e : DirEntry) (entries : List DirEntry) :
    versionShapedNames (e :: entries) =
      if e.isDir && containsDot e.name then e.name :: versionShapedNames entries
      else versionShapedNames entries := by
  unfold versionShapedNames
  rw [List.filterMap_cons]
  by_cases h : (e.isDir && containsDot e.name) = true
  · rw [if_pos h, if_pos h]
  · rw [if_neg h, if_neg h]

theorem containsDot_of_mem_versionShapedNames :
    ∀ (entries : List DirEntry) (x : String),
      x ∈ versionShapedNames entries → containsDot x = true := by
  intro entries
  induction entries with
  | nil => intro x hx; simp [versionShapedNames] at hx
  | cons e rest ih =>
    intro x hx
    rw [versionShapedNames_cons] at hx
    by_cases h : (e.isDir && containsDot e.name) = true
    · rw [if_pos h] at hx
      rcases List.mem_cons.mp hx with heq | hmem
      · subst heq
        exact (Bool.and_eq_true_iff.mp h).2
      · exact ih x hmem
    · rw [if_neg h] at hx
      exact ih x hx

theorem latestLoop_not_lt_acc :
    ∀ (entries : List DirEntry) (acc : String),
      goStringLt (latestLoop entries acc) acc = false := by
  intro entries
  induction entries with
  | nil => intro acc; exact goStringLt_irrefl acc
  | cons e rest ih =>
    intro acc
    simp only [latestLoop]
    by_cases hcond : (e.isDir && containsDot e.name) = true
    · rw [if_pos hcond]
      by_cases hsel : (acc = "" || goStringLt acc e.name) = true
      · rw [if_pos hsel]
        rcases Bool.or_eq_true_iff.mp hsel with hemp | hlt
        · have hacc : acc = "" := by simpa using hemp
          subst hacc
          exact goStringLt_empty_right _
        · cases hr : goStringLt (latestLoop rest e.name) acc with
          | false => rfl
          | true =>
            have h3 := goStringLt_trans hr hlt
            rw [ih e.name] at h3
            exact h3.symm
      · rw [if_neg hsel]
        exact ih acc
    · rw [if_neg hcond]
      exact ih acc

theorem latestLoop_not_lt_mem :
    ∀ (entries : List DirEntry) (acc x : String),
      x ∈ versionShapedNames entries → goStringLt (latestLoop entries acc) x = false := by
  intro entries
  induction entries with
  | nil => intro acc x hx; simp [versionShapedNames] at hx
  | cons e rest ih =>
    intro acc x hx
    rw [versionShapedNames_cons] at hx
    simp only [latestLoop]
    by_cases hcond : (e.isDir && containsDot e.name) = true
    · rw [if_pos hcond]
      rw [if_pos hcond] at hx
      by_cases hsel : (acc = "" || goStringLt acc e.name) = true
      · rw [if_pos hsel]
        rcases List.mem_cons.mp hx with heq | hmem
        · subst heq
          exact latestLoop_not_lt_acc rest e.name
        · exact ih e.name x hmem
      · rw [if_neg hsel]
        rcases List.mem_cons.mp hx with heq | hmem
        · subst heq
          have hsel2 : (decide (acc = "") || goStringLt acc e.name) = false :=
            Bool.not_eq_true _ ▸ hsel
          have hnlt : goStringLt acc e.name = false := (Bool.or_eq_false_iff.mp hsel2).2
          have hacc : goStringLt (latestLoop rest acc) acc = false :=
            latestLoop_not_lt_acc rest acc
          cases hr : goStringLt (latestLoop rest acc) e.name with
          | false => rfl
          | true =>
            cases hea : goStringLt e.name acc with
            | true =>
              have h3 := goStringLt_trans hr hea
              rw [hacc] at h3
              exact h3.symm
            | false =>
              have heq2 : acc = e.name := goStringLt_eq_of_not_lt hnlt hea
              have h4 := hr
              rw [← heq2] at h4
              rw [hacc] at h4
              exact absurd h4 Bool.false_ne_true
        · exact ih acc x hmem
    · rw [if_neg hcond]
      rw [if_neg hcond] at hx
      exact ih acc x hx

theorem latestLoop_self_or_mem :
    ∀ (entries : List DirEntry) (acc : String),
      latestLoop entries acc = acc ∨ latestLoop entries acc ∈ versionShapedNames entries := by
  intro entries
  induction entries with
  | nil => intro acc; exact Or.inl rfl
  | cons e rest ih =>
    intro acc
    rw [versionShapedNames_cons]
    simp only [latestLoop]
    by_cases hcond : (e.isDir && containsDot e.name) = true
    · rw [if_pos hcond, if_pos hcond]
      by_cases hsel : (acc = "" || goStringLt acc e.name) = true
      · rw [if_pos hsel]
        rcases ih e.name with h | h
        · refine Or.inr ?_
          rw [h]
          exact List.mem_cons_self _ _
        · exact Or.inr (List.mem_cons_of_mem _ h)
      · rw [if_neg hsel]
        rcases ih acc with h | h
        · exact Or.inl h
        · exact Or.inr (List.mem_cons_of_mem _ h)
    · rw [if_neg hcond, if_neg hcond]
      exact ih acc

theorem latestLoop_acc_of_no_shaped :
    ∀ (entries : List DirEntry) (acc : String),
      versionShapedNames entries = [] → latestLoop entries acc = acc := by
  intro entries
  induction entries with
  | nil => intro acc _; rfl
  | cons e rest ih =>
    intro acc h
    rw [versionShapedNames_cons] at h
    simp only [latestLoop]
    by_cases hcond : (e.isDir && containsDot e.name) = true
    · rw [if_pos hcond] at h
      exact absurd h (List.cons_ne_nil _ _)
    · rw [if_neg hcond] at h
      rw [if_neg hcond]
      exact ih acc h

theorem versionShapedNames_of_latestLoop_empty :
    ∀ (entries : List DirEntry),
      latestLoop entries "" = "" → versionShapedNames entries = [] := by
  intro entries
  induction entries with
  | nil => intro _; rfl
  | cons e rest ih =>
    intro h
    rw [versionShapedNames_cons]
    simp only [latestLoop] at h
    by_cases hcond : (e.isDir && containsDot e.name) = true
    · exfalso
      rw [if_pos hcond] at h
      rw [if_pos (show (decide True || goStringLt "" e.name) = true by simp)] at h
      have hdot : containsDot e.name = true := (Bool.and_eq_true_iff.mp hcond).2
      rcases latestLoop_self_or_mem rest e.name with hm | hm
      · rw [h] at hm
        rw [← hm] at hdot
        simp [containsDot] at hdot
      · rw [h] at hm
        have := containsDot_of_mem_versionShapedNames rest "" hm
        simp [containsDot] at this
    · rw [if_neg hcond] at h
      rw [if_neg hcond]
      exact ih h

theorem pfx_sfx_no_overlap {l p s q : List Char} {c : Char}
    (hp : p <+: l) (hs : s <:+ l) (hpe : p = q ++ [c]) (hc : c ∉ s) :
    p.length + s.length ≤ l.length := by
  obtain ⟨u, hu⟩ := hs
  by_contra hlen
  push_neg at hlen
  have hluls : l.length = u.length + s.length := by
    have := congrArg List.length hu
    simpa using this.symm
  have hul : u.length < p.length := by omega
  have hupfx : u <+: l := by
    rw [← hu]; exact List.prefix_append u s
  have hup : u <+: p := List.prefix_of_prefix_length_le hupfx hp (le_of_lt hul)
  obtain ⟨r, hr⟩ := hup
  have hrne : r ≠ [] := by
    intro h0
    rw [h0, List.append_nil] at hr
    have := congrArg List.length hr
    omega
  obtain ⟨t, ht⟩ := hp
  rw [← hr, List.append_assoc] at ht
  rw [← hu] at ht
  have hrt : r ++ t = s := List.append_cancel_left ht
  have h1 : p.getLast? = some c := by
    rw [hpe]; exact List.getLast?_concat q
  have h2 : p.getLast? = r.getLast? := by
    rw [← hr]; exact List.getLast?_append_of_ne_nil u hrne
  have hcr : c ∈ r := List.mem_of_mem_getLast? (Option.mem_def.mpr (h2.symm.trans h1))
  have hcs : c ∈ s := by
    rw [← hrt]; exact List.mem_append_left t hcr
  exact hc hcs

theorem reconstruct_of_pfx_sfx {l p s : List Char} (hp : p <+: l) (hs : s <:+ l)
    (hlen : p.length + s.length ≤ l.length) :
    p ++ ((l.take (l.length - s.length)).drop p.length) ++ s = l := by
  obtain ⟨u, hu⟩ := hs
  have hluls : l.length = u.length + s.length := by
    have := congrArg List.length hu
    simpa using this.symm
  have htake : l.take (l.length - s.length) = u := by
    have h1 : l.length - s.length = u.length := by omega
    rw [h1, ← hu, List.take_left]
  rw [htake]
  have hpu : p <+: u := by
    apply List.prefix_of_prefix_length_le hp
    · rw [← hu]; exact List.prefix_append u s
    · omega
  obtain ⟨w, hw⟩ := hpu
  have hdrop : u.drop p.length = w := by
    rw [← hw]; exact List.drop_left p w
  rw [hdrop, hw, hu]

theorem filename_decomp (ctype s : String)
    (hpfx : hasPfx s (ctype ++ "_") = true) (hsfx : hasSfx s ".yaml" = true) :
    s = ctype ++ "_" ++ trimPfx (trimSfx s ".yaml") (ctype ++ "_") ++ ".yaml" := by
  have hpdata : (ctype ++ "_").data = ctype.data ++ ['_'] := rfl
  have hp : (ctype ++ "_").data <+: s.data := List.isPrefixOf_iff_prefix.mp hpfx
  have hs : (".yaml" : String).data <:+ s.data := List.isSuffixOf_iff_suffix.mp hsfx
  have hc : ('_' : Char) ∉ (".yaml" : String).data := by decide
  have hlen : (ctype ++ "_").data.length + (".yaml" : String).data.length ≤ s.data.length :=
    pfx_sfx_no_overlap hp hs hpdata hc
  have hrec := reconstruct_of_pfx_sfx hp hs hlen
  have htrims : trimSfx s ".yaml" =
      String.mk (s.data.take (s.data.length - (".yaml" : String).data.length)) := by
    unfold trimSfx
    rw [if_pos hsfx]
  have hpfx2 : hasPfx (trimSfx s ".yaml") (ctype ++ "_") = true := by
    rw [htrims]
    unfold hasPfx
    apply List.isPrefixOf_iff_prefix.mpr
    obtain ⟨u, hu⟩ := hs
    have hluls : s.data.length = u.length + (".yaml" : String).data.length := by
      have := congrArg List.length hu
      simpa using this.symm
    have htake : s.data.take (s.data.length - (".yaml" : String).data.length) = u := by
      have h1 : s.data.length - (".yaml" : String).data.length = u.length := by omega
      rw [h1, ← hu, List.take_left]
    rw [htake]
    show (ctype ++ "_").data <+: u
    apply List.prefix_of_prefix_length_le hp
    · rw [← hu]; exact List.prefix_append u (".yaml" : String).data
    · omega
  have htrimp : trimPfx (trimSfx s ".yaml") (ctype ++ "_") =
      String.mk ((s.data.take (s.data.length - (".yaml" : String).data.length)).drop
        (ctype ++ "_").data.length) := by
    unfold trimPfx
    rw [if_pos hpfx2, htrims]
  apply String.ext
  show s.data = ((ctype ++ "_") ++ trimPfx (trimSfx s ".yaml") (ctype ++ "_") ++ ".yaml").data
  have hdata : ((ctype ++ "_") ++ trimPfx (trimSfx s ".yaml") (ctype ++ "_") ++ ".yaml").data =
      (ctype ++ "_").data ++ (trimPfx (trimSfx s ".yaml") (ctype ++ "_")).data ++
        (".yaml" : String).data := rfl
  rw [hdata, htrimp]
  exact hrec.symm

theorem GetComponentSchema_hit (fs : EmbedFS) (parseYaml : Bytes → Option SchemaMap)
    (sm : SchemaManager) (c n v : String) (s : ComponentSchema)
    (h : lookupKey sm.cache (mkCacheKey c n v) = some s) :
    GetComponentSchema fs parseYaml sm c n v = (Except.ok s, sm, []) := by
  unfold GetComponentSchema
  rw [h]

theorem GetComponentSchema_miss_err (fs : EmbedFS) (parseYaml : Bytes → Option SchemaMap)
    (sm : SchemaManager) (c n v e : String)
    (h1 : lookupKey sm.cache (mkCacheKey c n v) = none)
    (h2 : loadSchemaFromFile fs parseYaml c n v = Except.error e) :
    GetComponentSchema fs parseYaml sm c n v =
      (Except.error e, sm, [schemaFilePath c n v]) := by
  unfold GetComponentSchema
  rw [h1, h2]

theorem GetComponentSchema_miss_ok (fs : EmbedFS) (parseYaml : Bytes → Option SchemaMap)
    (sm : SchemaManager) (c n v : String) (s : ComponentSchema)
    (h1 : lookupKey sm.cache (mkCacheKey c n v) = none)
    (h2 : loadSchemaFromFile fs parseYaml c n v = Except.ok s) :
    GetComponentSchema fs parseYaml sm c n v =
      (Except.ok s, { cache := insertKey sm.cache (mkCacheKey c n v) s },
        [schemaFilePath c n v]) := by
  unfold GetComponentSchema
  rw [h1, h2]

theorem loadSchemaFromFile_ok_fields (fs : EmbedFS) (parseYaml : Bytes → Option SchemaMap)
    (c n v : String) (s : ComponentSchema)
    (h : loadSchemaFromFile fs parseYaml c n v = Except.ok s) :
    s.name = n ∧ s.type = c ∧ s.version = v := by
  unfold loadSchemaFromFile at h
  split at h
  · exact absurd h (by simp)
  · split at h
    · exact absurd h (by simp)
    · cases h
      exact ⟨rfl, rfl, rfl⟩

theorem loadSchemaFromFile_ok_of_parse (fs : EmbedFS) (parseYaml : Bytes → Option SchemaMap)
    (c n v : String) (data : Bytes) (sd : SchemaMap)
    (hr : fs.readFile (schemaFilePath c n v) = some data)
    (hp : parseYaml data = some sd) :
    loadSchemaFromFile fs parseYaml c n v =
      Except.ok { name := n, type := c, version := v, schema := sd } := by
  simp only [loadSchemaFromFile, hr, hp]

theorem entryComponentName_some_elim (componentType : String) (e : DirEntry) (nm : String)
    (h : entryComponentName componentType e = some nm) :
    e.isDir = false ∧ hasSfx e.name ".yaml" = true ∧
      hasPfx e.name (componentType ++ "_") = true ∧
      nm = trimPfx (trimSfx e.name ".yaml") (componentType ++ "_") ∧ nm ≠ "" := by
  unfold entryComponentName at h
  by_cases h1 : (e.isDir || !hasSfx e.name ".yaml") = true
  · rw [if_pos h1] at h
    exact absurd h (by simp)
  · rw [if_neg h1] at h
    have h1b := Bool.or_eq_false_iff.mp (Bool.not_eq_true _ ▸ h1)
    have hdir : e.isDir = false := h1b.1
    have hsfx : hasSfx e.name ".yaml" = true := by
      have := h1b.2
      simpa using this
    by_cases h2 : hasPfx e.name (componentType ++ "_") = true
    · rw [if_pos h2] at h
      by_cases h3 : trimPfx (trimSfx e.name ".yaml") (componentType ++ "_") ≠ ""
      · rw [if_pos h3] at h
        have : nm = trimPfx (trimSfx e.name ".yaml") (componentType ++ "_") := by
          cases h; rfl
        exact ⟨hdir, hsfx, h2, this, this ▸ h3⟩
      · rw [if_neg h3] at h
        exact absurd h (by simp)
    · rw [if_neg h2] at h
      exact absurd h (by simp)

theorem GetComponentNames_ok_elim (fs : EmbedFS) (componentType version : String)
    (names : List String) (io : List String)
    (h : GetComponentNames fs componentType version = (Except.ok names, io)) :
    isValidComponentType componentType = true ∧
      ∃ entries, fs.readDir ("schemas/" ++ version) = some entries ∧
        names = entries.filterMap (entryComponentName componentType) := by
  unfold GetComponentNames at h
  by_cases hv : isValidComponentType componentType = true
  · rw [if_pos hv] at h
    refine ⟨hv, ?_⟩
    cases hd : fs.readDir ("schemas/" ++ version) with
    | none => rw [hd] at h; exact absurd h (by simp)
    | some entries =>
      rw [hd] at h
      refine ⟨entries, rfl, ?_⟩
      by_cases he : entries.filterMap (entryComponentName componentType) = []
      · simp only [he, if_pos rfl] at h
        exact absurd h (by simp)
      · simp only [if_neg he] at h
        have := congrArg Prod.fst h
        simpa using this.symm
  · rw [if_neg hv] at h
    exact absurd h (by simp)

/-- Parser stub used by concrete witness stores: accepts every byte string and
returns the empty schema map. -/
def parseAny : Bytes → Option SchemaMap := fun _ => some []

/-- A store with no directories and no files. -/
def fsEmpty : EmbedFS := { readDir := fun _ => none, readFile := fun _ => none }

/-- C1. The claim is false on the code: GetComponentSchema performs no
category validation at all.  On a store with no matching file, a call with the
category "database" (outside the closed set) reaches the store (the I/O trace
holds the schema file path) and fails with the NotFound style message
"schema not found for component ...", not with the InvalidCategory message
"invalid component type: ..." that GetComponentNames produces. -/
theorem C1_counterexample :
    GetComponentSchema fsEmpty parseAny NewSchemaManager "database" "otlp" "0.138.0" =
      (Except.error "schema not found for component database otlp", NewSchemaManager,
        ["schemas/0.138.0/database_otlp.yaml"]) ∧
    (["schemas/0.138.0/database_otlp.yaml"] : List String) ≠ [] ∧
    "schema not found for component database otlp" ≠ "invalid component type: database" := by
  refine ⟨rfl, ?_, ?_⟩
  · decide
  · decide

/-- C1 amended: GetComponentSchema never validates the category.  For any
category string (invalid ones included), on a cache miss it reads the schema
file path from the store and, when that file is absent, fails with the
NotFound message "schema not found for component <type> <name>" after the
read; only GetComponentNames rejects an invalid category with the message
"invalid component type: <type>" before any store access. -/
theorem C1_amended_no_category_validation (fs : EmbedFS)
    (parseYaml : Bytes → Option SchemaMap) (sm : SchemaManager) (c n v : String)
    (hmiss : lookupKey sm.cache (mkCacheKey c n v) = none)
    (habsent : fs.readFile (schemaFilePath c n v) = none) :
    GetComponentSchema fs parseYaml sm c n v =
      (Except.error ("schema not found for component " ++ c ++ " " ++ n), sm,
        [schemaFilePath c n v]) ∧
    (isValidComponentType c = false →
      GetComponentNames fs c v = (Except.error ("invalid component type: " ++ c), [])) := by
  constructor
  · apply GetComponentSchema_miss_err fs parseYaml sm c n v _ hmiss
    unfold loadSchemaFromFile
    rw [habsent]
  · intro hinvalid
    unfold GetComponentNames
    rw [if_neg (by rw [hinvalid]; exact Bool.false_ne_true)]

/-- C1 amended witness: the amended statement instantiated on the empty store
with the invalid category "database". -/
theorem C1_amended_witness :
    GetComponentSchema fsEmpty parseAny NewSchemaManager "database" "otlp" "0.138.0" =
      (Except.error ("schema not found for component " ++ "database" ++ " " ++ "otlp"),
        NewSchemaManager, [schemaFilePath "database" "otlp" "0.138.0"]) ∧
    (isValidComponentType "database" = false →
      GetComponentNames fsEmpty "database" "0.138.0" =
        (Except.error ("invalid component type: " ++ "database"), [])) :=
  C1_amended_no_category_validation fsEmpty parseAny NewSchemaManager
    "database" "otlp" "0.138.0" rfl rfl

/-- C2. Idempotent lookup: when GetComponentSchema succeeds, a second call
with the same (category, name, version) returns the same ComponentSchema and
the state it left behind, and reads nothing from the store (empty I/O trace):
the answer comes from the cache. -/
theorem C2_idempotent_cached_lookup (fs : EmbedFS)
    (parseYaml : Bytes → Option SchemaMap) (sm sm2 : SchemaManager)
    (c n v : String) (s : ComponentSchema) (io : List String)
    (h : GetComponentSchema fs parseYaml sm c n v = (Except.ok s, sm2, io)) :
    GetComponentSchema fs parseYaml sm2 c n v = (Except.ok s, sm2, []) := by
  cases hl : lookupKey sm.cache (mkCacheKey c n v) with
  | some s0 =>
    rw [GetComponentSchema_hit fs parseYaml sm c n v s0 hl] at h
    simp only [Prod.mk.injEq, Except.ok.injEq] at h
    obtain ⟨hs, hsm, _⟩ := h
    rw [← hsm]
    exact GetComponentSchema_hit fs parseYaml sm c n v s (hs ▸ hl)
  | none =>
    cases hload : loadSchemaFromFile fs parseYaml c n v with
    | error e =>
      rw [GetComponentSchema_miss_err fs parseYaml sm c n v e hl hload] at h
      simp at h
    | ok s1 =>
      rw [GetComponentSchema_miss_ok fs parseYaml sm c n v s1 hl hload] at h
      simp only [Prod.mk.injEq, Except.ok.injEq] at h
      obtain ⟨hs, hsm, _⟩ := h
      rw [← hsm]
      apply GetComponentSchema_hit
      rw [lookupKey_insertKey]
      rw [if_pos rfl, hs]

/-- A store holding the single schema file schemas/0.138.0/receiver_otlp.yaml. -/
def fsOne : EmbedFS :=
  { readDir := fun d => if d = "schemas" then some [{ name := "0.138.0", isDir := true }]
      else none,
    readFile := fun p => if p = "schemas/0.138.0/receiver_otlp.yaml" then some [1] else none }

/-- C2 witness: on the one file store, the call after a successful first
lookup of (receiver, otlp, 0.138.0) is answered from the cache with no store
read. -/
theorem C2_witness :
    GetComponentSchema fsOne parseAny
      { cache := [("receiver_otlp_0.138.0",
        { name := "otlp", type := "receiver", version := "0.138.0", schema := [] })] }
      "receiver" "otlp" "0.138.0" =
      (Except.ok { name := "otlp", type := "receiver", version := "0.138.0", schema := [] },
        { cache := [("receiver_otlp_0.138.0",
          { name := "otlp", type := "receiver", version := "0.138.0", schema := [] })] },
        []) :=
  C2_idempotent_cached_lookup fsOne parseAny NewSchemaManager _ "receiver" "otlp" "0.138.0"
    _ ["schemas/0.138.0/receiver_otlp.yaml"] rfl

/-- C8. Atomicity of failed lookups: whenever GetComponentSchema returns an
error, the SchemaManager state is returned exactly as it was: no cache entry
is added, removed or changed. -/
theorem C8_failed_lookup_preserves_cache (fs : EmbedFS)
    (parseYaml : Bytes → Option SchemaMap) (sm sm2 : SchemaManager)
    (c n v e : String) (io : List String)
    (h : GetComponentSchema fs parseYaml sm c n v = (Except.error e, sm2, io)) :
    sm2 = sm := by
  cases hl : lookupKey sm.cache (mkCacheKey c n v) with
  | some s0 =>
    rw [GetComponentSchema_hit fs parseYaml sm c n v s0 hl] at h
    simp at h
  | none =>
    cases hload : loadSchemaFromFile fs parseYaml c n v with
    | error e2 =>
      rw [GetComponentSchema_miss_err fs parseYaml sm c n v e2 hl hload] at h
      simp only [Prod.mk.injEq] at h
      exact h.2.1.symm
    | ok s1 =>
      rw [GetComponentSchema_miss_ok fs parseYaml sm c n v s1 hl hload] at h
      simp at h

/-- C8 witness: a failed lookup on the one file store leaves a nonempty cache
untouched. -/
theorem C8_witness :
    ({ cache := [("receiver_otlp_0.138.0",
        { name := "otlp", type := "receiver", version := "0.138.0",
          schema := [] })] } : SchemaManager) =
      { cache := [("receiver_otlp_0.138.0",
        { name := "otlp", type := "receiver", version := "0.138.0", schema := [] })] } :=
  C8_failed_lookup_preserves_cache fsOne parseAny
    { cache := [("receiver_otlp_0.138.0",
      { name := "otlp", type := "receiver", version := "0.138.0", schema := [] })] }
    _ "exporter" "debug" "0.138.0" "schema not found for component exporter debug"
    ["schemas/0.138.0/exporter_debug.yaml"] rfl

/-- A store whose schemas directory holds the two version directories 0.10.0
and 0.9.0. -/
def fsNineTen : EmbedFS :=
  { readDir := fun d => if d = "schemas" then
      some [{ name := "0.10.0", isDir := true }, { name := "0.9.0", isDir := true }]
    else none,
    readFile := fun _ => none }

/-- C3. GetLatestVersion returns the lexicographic (Go string order) maximum
of the version shaped directory names (directories whose name contains a dot)
under schemas, and errors exactly when no such directory exists; in
particular, with both 0.9.0 and 0.10.0 present it returns 0.9.0, because
lexicographically 0.9.0 is larger than 0.10.0. -/
theorem C3_latest_version_lexicographic :
    (∀ (fs : EmbedFS) (entries : List DirEntry),
      fs.readDir "schemas" = some entries →
      (versionShapedNames entries ≠ [] →
        GetLatestVersion fs = Except.ok (latestLoop entries "") ∧
        latestLoop entries "" ∈ versionShapedNames entries ∧
        ∀ x ∈ versionShapedNames entries, goStringLt (latestLoop entries "") x = false) ∧
      (versionShapedNames entries = [] →
        GetLatestVersion fs = Except.error "no versions found in schemas directory")) ∧
    GetLatestVersion fsNineTen = Except.ok "0.9.0" := by
  constructor
  · intro fs entries hdir
    constructor
    · intro hne
      have hres : latestLoop entries "" ≠ "" := by
        intro h0
        exact hne (versionShapedNames_of_latestLoop_empty entries h0)
      refine ⟨?_, ?_, ?_⟩
      · unfold GetLatestVersion
        rw [hdir]
        show (if latestLoop entries "" = "" then
          Except.error "no versions found in schemas directory"
          else Except.ok (latestLoop entries "")) = Except.ok (latestLoop entries "")
        rw [if_neg hres]
      · rcases latestLoop_self_or_mem entries "" with h | h
        · exact absurd h hres
        · exact h
      · intro x hx
        exact latestLoop_not_lt_mem entries "" x hx
    · intro hempty
      unfold GetLatestVersion
      rw [hdir]
      show (if latestLoop entries "" = "" then
        Except.error "no versions found in schemas directory"
        else Except.ok (latestLoop entries "")) =
        Except.error "no versions found in schemas directory"
      rw [if_pos (latestLoop_acc_of_no_shaped entries "" hempty)]
  · rfl

/-- C3 witness: the general statement instantiated on the store with 0.10.0
and 0.9.0, showing the returned value is the lexicographic maximum. -/
theorem C3_witness :
    GetLatestVersion fsNineTen =
      Except.ok (latestLoop
        [{ name := "0.10.0", isDir := true }, { name := "0.9.0", isDir := true }] "") ∧
    latestLoop [{ name := "0.10.0", isDir := true }, { name := "0.9.0", isDir := true }] "" ∈
      versionShapedNames
        [{ name := "0.10.0", isDir := true }, { name := "0.9.0", isDir := true }] ∧
    ∀ x ∈ versionShapedNames
        [{ name := "0.10.0", isDir := true }, { name := "0.9.0", isDir := true }],
      goStringLt (latestLoop
        [{ name := "0.10.0", isDir := true }, { name := "0.9.0", isDir := true }] "") x =
        false :=
  (C3_latest_version_lexicographic.1 fsNineTen
    [{ name := "0.10.0", isDir := true }, { name := "0.9.0", isDir := true }] rfl).1
    (by decide)

/-- The specification example document for the deprecation scan: an object
field a with a nested string field b flagged deprecated with description old.
The node kinds of the specification are stored under the JSON key "type". -/
def docC4 : SchemaMap :=
  [("properties", Value.vobj [("a", Value.vobj [("type", Value.vstr "object"),
    ("properties", Value.vobj [("b", Value.vobj [("type", Value.vstr "string"),
      ("deprecated", Value.vbool true), ("description", Value.vstr "old")])])])])]

/-- A store serving docC4 as the schema of (receiver, otlp, 0.138.0). -/
def fsC4 : EmbedFS :=
  { readDir := fun _ => none,
    readFile := fun p => if p = "schemas/0.138.0/receiver_otlp.yaml" then some [4] else none }

/-- Parser for the fsC4 store. -/
def parseC4 : Bytes → Option SchemaMap := fun b => if b = [4] then some docC4 else none

/-- C4. Deprecation path construction: on the specification example document
GetDeprecatedFields returns exactly one DeprecatedField with dotted path a.b,
description old and declared type string; and in general every reported entry
of the scan is produced at a visited node m, with name the dotted path built
by joining the parent path and the field name with ".", description the
string bound to "description" in m (the empty string when absent), and type
the string bound to "type" (the node kind) in m. -/
theorem C4_deprecation_path_construction :
    (GetDeprecatedFields fsC4 parseC4 NewSchemaManager "receiver" "otlp" "0.138.0").1 =
      Except.ok [{ name := "a.b", description := "old", type := "string" }] ∧
    (∀ (root : SchemaMap) (d : DeprecatedField), d ∈ findDeprecatedFields root "" →
      ∃ path m, ScanVisits root "" path m ∧ d.name = path ∧
        d.description = descOf m ∧ d.type = typeOf m) := by
  constructor
  · have h1 : (GetDeprecatedFields fsC4 parseC4 NewSchemaManager "receiver" "otlp"
        "0.138.0").1 = Except.ok (findDeprecatedFields docC4 "") := rfl
    rw [h1]
    rw [show findDeprecatedFields docC4 "" =
        [{ name := "a.b", description := "old", type := "string" }] from by
      simp [docC4, findDeprecatedFields_cons, findDeprecatedFields_nil,
        scanProperties_cons, scanProperties_nil, deprecatedEntry, lookupKey,
        descOf, typeOf, joinPath]]
  · intro root d hd
    obtain ⟨path, m, hv, hdep, hde⟩ := findDeprecatedFields_sound root "" d hd
    refine ⟨path, m, hv, ?_, ?_, ?_⟩
    · rw [hde]
    · rw [hde]
    · rw [hde]

/-- C4 witness: the general part applied to the example document and its
single reported entry. -/
theorem C4_witness :
    ∃ path m, ScanVisits docC4 "" path m ∧
      ({ name := "a.b", description := "old", type := "string" } : DeprecatedField).name =
        path ∧
      ({ name := "a.b", description := "old", type := "string" } : DeprecatedField).description
        = descOf m ∧
      ({ name := "a.b", description := "old", type := "string" } : DeprecatedField).type =
        typeOf m :=
  C4_deprecation_path_construction.2 docC4
    { name := "a.b", description := "old", type := "string" }
    (by simp [docC4, findDeprecatedFields_cons, findDeprecatedFields_nil,
      scanProperties_cons, scanProperties_nil, deprecatedEntry, lookupKey,
      descOf, typeOf, joinPath])

/-- A document whose only deprecated field sits inside the items subtree of an
array field: properties.a is an array whose element type has a deprecated
field b. -/
def docItems : SchemaMap :=
  [("properties", Value.vobj [("a", Value.vobj [("type", Value.vstr "array"),
    ("items", Value.vobj [("type", Value.vstr "object"),
      ("properties", Value.vobj [("b", Value.vobj [("deprecated", Value.vbool true),
        ("description", Value.vstr "inside items")])])])])])]

/-- C6. The deprecation scan never descends into an items subtree: erasing
every "items" entry of a document (recursively below the properties subtrees
the scan walks) never changes the scan output, so no reported entry can come
from a node reachable only through an items child; concretely, a deprecated
field inside an array element schema is not reported. -/
theorem C6_items_not_traversed :
    (∀ (schema : SchemaMap) (p : String),
      findDeprecatedFields (eraseItemsNode schema) p = findDeprecatedFields schema p) ∧
    findDeprecatedFields docItems "" = [] := by
  constructor
  · exact findDeprecatedFields_eraseItemsNode
  · simp [docItems, findDeprecatedFields_cons, findDeprecatedFields_nil,
      scanProperties_cons, scanProperties_nil, deprecatedEntry, lookupKey,
      descOf, typeOf, joinPath]

/-- A document with one field whose deprecated entry is the boolean true. -/
def docDepTrue : SchemaMap :=
  [("properties", Value.vobj [("a", Value.vobj [("deprecated", Value.vbool true)])])]

/-- A document with one field whose deprecated entry is the boolean false. -/
def docDepFalse : SchemaMap :=
  [("properties", Value.vobj [("a", Value.vobj [("deprecated", Value.vbool false)])])]

/-- A document with one field carrying no deprecated entry. -/
def docDepAbsent : SchemaMap :=
  [("properties", Value.vobj [("a", Value.vobj [("description", Value.vstr "x")])])]

/-- A document with one field whose deprecated entry is the string "true". -/
def docDepString : SchemaMap :=
  [("properties", Value.vobj [("a", Value.vobj [("deprecated", Value.vstr "true")])])]

/-- C9. A field is reported by the deprecation scan exactly when its schema
node binds the key "deprecated" to the boolean value true: membership in the
scan output is equivalent to the existence of a visited node with deprecated
bound to the boolean true producing the entry; concretely, a node with
deprecated false, with deprecated absent, or with deprecated bound to the
string "true" produces nothing, while deprecated bound to the boolean true
produces the entry. -/
theorem C9_deprecated_iff_bool_true :
    (∀ (root : SchemaMap) (d : DeprecatedField),
      d ∈ findDeprecatedFields root "" ↔
        ∃ path m, ScanVisits root "" path m ∧
          lookupKey m "deprecated" = some (Value.vbool true) ∧
          d = { name := path, description := descOf m, type := typeOf m }) ∧
    findDeprecatedFields docDepFalse "" = [] ∧
    findDeprecatedFields docDepAbsent "" = [] ∧
    findDeprecatedFields docDepString "" = [] ∧
    findDeprecatedFields docDepTrue "" = [{ name := "a", description := "", type := "" }] := by
  refine ⟨?_, ?_, ?_, ?_, ?_⟩
  · intro root d
    constructor
    · intro hd
      exact findDeprecatedFields_sound root "" d hd
    · intro hex
      obtain ⟨path, m, hv, hdep, hde⟩ := hex
      rw [hde]
      exact mem_findDeprecatedFields_of_visits hv hdep
  · simp [docDepFalse, findDeprecatedFields_cons, findDeprecatedFields_nil,
      scanProperties_cons, scanProperties_nil, deprecatedEntry, lookupKey,
      descOf, typeOf, joinPath]
  · simp [docDepAbsent, findDeprecatedFields_cons, findDeprecatedFields_nil,
      scanProperties_cons, scanProperties_nil, deprecatedEntry, lookupKey,
      descOf, typeOf, joinPath]
  · simp [docDepString, findDeprecatedFields_cons, findDeprecatedFields_nil,
      scanProperties_cons, scanProperties_nil, deprecatedEntry, lookupKey,
      descOf, typeOf, joinPath]
  · simp [docDepTrue, findDeprecatedFields_cons, findDeprecatedFields_nil,
      scanProperties_cons, scanProperties_nil, deprecatedEntry, lookupKey,
      descOf, typeOf, joinPath]

/-- C5. YAML/JSON validation equivalence: ValidateComponentYAML parses the
YAML bytes into a generic value, marshals that value to JSON bytes and
delegates to ValidateComponentJSON (first conjunct: the single validation
code path); and when the gojsonschema validator depends on the candidate
bytes only through their parsed JSON value (hjs, the decomposition the
specification describes for the third party validator), YAML bytes and JSON
bytes denoting the same value v produce identical results and identical final
states (second conjunct). -/
theorem C5_yaml_json_equivalence {R : Type}
    (fs : EmbedFS) (parseYaml : Bytes → Option SchemaMap)
    (marshalMap : SchemaMap → Option Bytes)
    (jsValidate : Bytes → Bytes → Except String R)
    (jsonUnmarshal : Bytes → Option Value)
    (validateVal : Bytes → Option Value → Except String R)
    (parseYamlVal : Bytes → Option Value) (marshalVal : Value → Option Bytes)
    (sm : SchemaManager) (c n ver : String)
    (yamlData jsonData jsonData2 : Bytes) (v : Value)
    (hjs : ∀ sb db, jsValidate sb db = validateVal sb (jsonUnmarshal db))
    (hyaml : parseYamlVal yamlData = some v)
    (hmar : marshalVal v = some jsonData2)
    (hrt : jsonUnmarshal jsonData2 = some v)
    (hjson : jsonUnmarshal jsonData = some v) :
    ValidateComponentYAML fs parseYaml marshalMap jsValidate parseYamlVal marshalVal
        sm c n ver yamlData =
      ValidateComponentJSON fs parseYaml marshalMap jsValidate sm c n ver jsonData2 ∧
    ValidateComponentYAML fs parseYaml marshalMap jsValidate parseYamlVal marshalVal
        sm c n ver yamlData =
      ValidateComponentJSON fs parseYaml marshalMap jsValidate sm c n ver jsonData := by
  have hdeleg : ValidateComponentYAML fs parseYaml marshalMap jsValidate parseYamlVal
      marshalVal sm c n ver yamlData =
      ValidateComponentJSON fs parseYaml marshalMap jsValidate sm c n ver jsonData2 := by
    simp only [ValidateComponentYAML, hyaml, hmar]
  refine ⟨hdeleg, hdeleg.trans ?_⟩
  unfold ValidateComponentJSON
  cases hg : GetComponentSchema fs parseYaml sm c n ver with
  | mk res rest =>
    cases rest with
    | mk sm2 io =>
      cases res with
      | error e => simp only []
      | ok cs =>
        simp only []
        cases hm : marshalMap cs.schema with
        | none => rfl
        | some sb =>
          simp only []
          rw [hjs sb jsonData2, hjs sb jsonData, hrt, hjson]

/-- C5 witness: the equivalence instantiated on the one file store with stub
codecs that parse every byte string to the null value and a validator that
accepts everything. -/
theorem C5_witness :
    ValidateComponentYAML fsOne parseAny (fun _ => some ([] : Bytes))
        (fun _ _ => Except.ok true) (fun _ => some Value.vnull) (fun _ => some ([] : Bytes))
        NewSchemaManager "receiver" "otlp" "0.138.0" [7] =
      ValidateComponentJSON fsOne parseAny (fun _ => some ([] : Bytes))
        (fun _ _ => Except.ok true) NewSchemaManager "receiver" "otlp" "0.138.0" [] ∧
    ValidateComponentYAML fsOne parseAny (fun _ => some ([] : Bytes))
        (fun _ _ => Except.ok true) (fun _ => some Value.vnull) (fun _ => some ([] : Bytes))
        NewSchemaManager "receiver" "otlp" "0.138.0" [7] =
      ValidateComponentJSON fsOne parseAny (fun _ => some ([] : Bytes))
        (fun _ _ => Except.ok true) NewSchemaManager "receiver" "otlp" "0.138.0" [8] :=
  C5_yaml_json_equivalence fsOne parseAny (fun _ => some ([] : Bytes))
    (fun _ _ => Except.ok true) (fun _ => some Value.vnull) (fun _ _ => Except.ok true)
    (fun _ => some Value.vnull) (fun _ => some ([] : Bytes))
    NewSchemaManager "receiver" "otlp" "0.138.0" [7] [8] [] Value.vnull
    (fun _ _ => rfl) rfl rfl rfl rfl

/-- C7. Version listing round-trip: when GetComponentNames succeeds, every
returned name yields a successful GetComponentSchema for the same category
and version, from any starting cache state.  The store is constrained as the
specification describes it (section 4.1): a tree of schema documents, so
every file present parses (hparse) and every file listed in a directory can
be read (hcoh). -/
theorem C7_listing_roundtrip (fs : EmbedFS) (parseYaml : Bytes → Option SchemaMap)
    (componentType version : String) (names : List String) (io : List String)
    (sm : SchemaManager)
    (hparse : ∀ pa b, fs.readFile pa = some b → parseYaml b ≠ none)
    (hcoh : ∀ d entries e, fs.readDir d = some entries → e ∈ entries → e.isDir = false →
      fs.readFile (d ++ "/" ++ e.name) ≠ none)
    (hnames : GetComponentNames fs componentType version = (Except.ok names, io)) :
    ∀ nm ∈ names, ∃ s,
      (GetComponentSchema fs parseYaml sm componentType nm version).1 = Except.ok s := by
  intro nm hnm
  obtain ⟨hvalid, entries, hdir, hfm⟩ :=
    GetComponentNames_ok_elim fs componentType version names io hnames
  rw [hfm] at hnm
  obtain ⟨e, he, hsome⟩ := List.mem_filterMap.mp hnm
  obtain ⟨hdirF, hsfx, hpfx, hnmeq, hne⟩ :=
    entryComponentName_some_elim componentType e nm hsome
  have hname : e.name = componentType ++ "_" ++ nm ++ ".yaml" := by
    rw [hnmeq]
    exact filename_decomp componentType e.name hpfx hsfx
  have hfile : fs.readFile (("schemas/" ++ version) ++ "/" ++ e.name) ≠ none :=
    hcoh ("schemas/" ++ version) entries e hdir he hdirF
  have hpath : schemaFilePath componentType nm version =
      ("schemas/" ++ version) ++ "/" ++ e.name := by
    rw [hname]
    rfl
  cases hl : lookupKey sm.cache (mkCacheKey componentType nm version) with
  | some s0 =>
    refine ⟨s0, ?_⟩
    rw [GetComponentSchema_hit fs parseYaml sm componentType nm version s0 hl]
  | none =>
    cases hr : fs.readFile (schemaFilePath componentType nm version) with
    | none =>
      rw [hpath] at hr
      exact absurd hr hfile
    | some b =>
      have hp := hparse _ b hr
      cases hpb : parseYaml b with
      | none => exact absurd hpb hp
      | some sd =>
        refine ⟨{ name := nm, type := componentType, version := version, schema := sd }, ?_⟩
        rw [GetComponentSchema_miss_ok fs parseYaml sm componentType nm version _ hl
          (loadSchemaFromFile_ok_of_parse fs parseYaml componentType nm version b sd hr hpb)]

/-- A coherent store: the directory schemas/0.138.0 lists one file
receiver_otlp.yaml and that file can be read. -/
def fsRound : EmbedFS :=
  { readDir := fun d => if d = "schemas/0.138.0" then
      some [{ name := "receiver_otlp.yaml", isDir := false }] else none,
    readFile := fun p => if p = "schemas/0.138.0/receiver_otlp.yaml" then some [1] else none }

/-- C7 witness: the round-trip instantiated on the coherent one file store:
the listed name otlp loads successfully. -/
theorem C7_witness :
    ∃ s, (GetComponentSchema fsRound parseAny NewSchemaManager "receiver" "otlp"
      "0.138.0").1 = Except.ok s :=
  C7_listing_roundtrip fsRound parseAny "receiver" "0.138.0" ["otlp"] ["schemas/0.138.0"]
    NewSchemaManager
    (fun pa b _ => by simp [parseAny])
    (by
      intro d entries e hd he hdir
      by_cases hdq : d = "schemas/0.138.0"
      · subst hdq
        have hd2 : (some [{ name := "receiver_otlp.yaml", isDir := false }] :
            Option (List DirEntry)) = some entries := hd
        cases hd2
        have he2 : e = { name := "receiver_otlp.yaml", isDir := false } :=
          List.mem_singleton.mp he
        subst he2
        simp [fsRound]
      · rw [show fsRound.readDir d = none from by simp [fsRound, hdq]] at hd
        exact absurd hd (by simp))
    rfl
    "otlp" (by simp)

theorem GetComponentSchema_preserves_bindings (fs : EmbedFS)
    (parseYaml : Bytes → Option SchemaMap) (sm : SchemaManager) (c n v k : String)
    (s : ComponentSchema) (h : lookupKey sm.cache k = some s) :
    lookupKey ((GetComponentSchema fs parseYaml sm c n v).2.1).cache k = some s := by
  cases hl : lookupKey sm.cache (mkCacheKey c n v) with
  | some s0 =>
    rw [GetComponentSchema_hit fs parseYaml sm c n v s0 hl]
    exact h
  | none =>
    cases hload : loadSchemaFromFile fs parseYaml c n v with
    | error e =>
      rw [GetComponentSchema_miss_err fs parseYaml sm c n v e hl hload]
      exact h
    | ok s1 =>
      rw [GetComponentSchema_miss_ok fs parseYaml sm c n v s1 hl hload]
      show lookupKey (insertKey sm.cache (mkCacheKey c n v) s1) k = some s
      rw [lookupKey_insertKey]
      by_cases hk : k = mkCacheKey c n v
      · rw [hk] at h
        rw [h] at hl
        exact absurd hl (by simp)
      · rw [if_neg hk]
        exact h

/-- A store holding the single schema file schemas/1.0/receiver_a_b.yaml,
whose component name a_b contains an underscore. -/
def fsCollide : EmbedFS :=
  { readDir := fun _ => none,
    readFile := fun p => if p = "schemas/1.0/receiver_a_b.yaml" then some [2] else none }

/-- The manager state after loading (receiver, a_b, 1.0) from fsCollide. -/
def smCollide : SchemaManager :=
  (GetComponentSchema fsCollide parseAny NewSchemaManager "receiver" "a_b" "1.0").2.1

/-- C10. The claim is false on the code: the cache key joins the identity
with "_", which can also occur inside a component name, so two distinct
identities can share one key.  After a successful lookup of
(receiver, a_b, 1.0) the reachable state maps the key receiver_a_b_1.0 to a
schema with Type receiver, yet that same key is also the key of the identity
(receiver_a, b, 1.0), whose category differs from the stored Type field. -/
theorem C10_counterexample :
    ¬ (∀ (fs : EmbedFS) (parseYaml : Bytes → Option SchemaMap) (sm : SchemaManager),
        Reachable fs parseYaml sm →
        ∀ c n v s, lookupKey sm.cache (mkCacheKey c n v) = some s →
          s.type = c ∧ s.name = n ∧ s.version = v) := by
  intro h
  have hreach : Reachable fsCollide parseAny smCollide :=
    Reachable.step NewSchemaManager "receiver" "a_b" "1.0" Reachable.init
  have hlook : lookupKey smCollide.cache (mkCacheKey "receiver_a" "b" "1.0") =
      some { name := "a_b", type := "receiver", version := "1.0", schema := [] } := rfl
  have htype := (h fsCollide parseAny smCollide hreach "receiver_a" "b" "1.0" _ hlook).1
  exact absurd htype (by decide)

/-- C10 amended: in every reachable SchemaManager state, every cache entry
sits under the key built from its own Type, Name and Version fields (the
fields of the identity whose lookup inserted it), and GetComponentSchema
never replaces an existing cache binding; but because "_" also joins the key,
distinct identities can collide on one key, so the entry fields cannot be
read back from an arbitrary decomposition of the key. -/
theorem C10_amended_cache_key_coherence (fs : EmbedFS)
    (parseYaml : Bytes → Option SchemaMap) (sm : SchemaManager)
    (hreach : Reachable fs parseYaml sm) :
    (∀ k s, lookupKey sm.cache k = some s → k = mkCacheKey s.type s.name s.version) ∧
    (∀ c n v k s, lookupKey sm.cache k = some s →
      lookupKey ((GetComponentSchema fs parseYaml sm c n v).2.1).cache k = some s) := by
  induction hreach with
  | init =>
    constructor
    · intro k s hks
      exact absurd hks (by simp [NewSchemaManager, lookupKey])
    · intro c n v k s hks
      exact absurd hks (by simp [NewSchemaManager, lookupKey])
  | step sm0 c n v hr ih =>
    constructor
    · intro k s hks
      cases hl : lookupKey sm0.cache (mkCacheKey c n v) with
      | some s0 =>
        rw [GetComponentSchema_hit fs parseYaml sm0 c n v s0 hl] at hks
        exact ih.1 k s hks
      | none =>
        cases hload : loadSchemaFromFile fs parseYaml c n v with
        | error e =>
          rw [GetComponentSchema_miss_err fs parseYaml sm0 c n v e hl hload] at hks
          exact ih.1 k s hks
        | ok s1 =>
          rw [GetComponentSchema_miss_ok fs parseYaml sm0 c n v s1 hl hload] at hks
          have hks2 : lookupKey (insertKey sm0.cache (mkCacheKey c n v) s1) k = some s := hks
          rw [lookupKey_insertKey] at hks2
          by_cases hk : k = mkCacheKey c n v
          · rw [if_pos hk] at hks2
            have hs : s1 = s := by cases hks2; rfl
            obtain ⟨hn, ht, hv⟩ := loadSchemaFromFile_ok_fields fs parseYaml c n v s1 hload
            rw [hk, ← hs, ht, hn, hv]
          · rw [if_neg hk] at hks2
            exact ih.1 k s hks2
    · intro c2 n2 v2 k s hks
      exact GetComponentSchema_preserves_bindings fs parseYaml _ c2 n2 v2 k s hks

/-- C10 amended witness: in the reachable collision state, the single cache
entry key receiver_a_b_1.0 equals the key built from the entry fields
(receiver, a_b, 1.0). -/
theorem C10_amended_witness :
    ("receiver_a_b_1.0" : String) =
      mkCacheKey "receiver" "a_b" "1.0" :=
  (C10_amended_cache_key_coherence fsCollide parseAny smCollide
    (Reachable.step NewSchemaManager "receiver" "a_b" "1.0" Reachable.init)).1
    "receiver_a_b_1.0"
    { name := "a_b", type := "receiver", version := "1.0", schema := [] } rfl
